import Mathlib

/-!
Shallow embedding of the ranking and pattern-inference core of the
painterjobs MCP server (src/index.js), together with proofs of the
spec's testable properties.

JavaScript numbers that arise from `Number(x)` coercion are modelled by
`JSNum`: either NaN or a rational (real arithmetic in place of binary64).
SQL `numeric` values arriving from the record store are modelled as `ℚ`.
-/

namespace PainterMCP

/-- Result of JavaScript `ToNumber` coercion: NaN or a number. -/
inductive JSNum where
  | nan : JSNum
  | num : ℚ → JSNum
deriving DecidableEq

/-- `Number(b) || 0`: NaN (and 0) collapse to 0. -/
def numOr0 : JSNum → ℚ
  | JSNum.nan => 0
  | JSNum.num q => q

/-- JavaScript division of a coerced value by a nonzero finite sum. -/
def jsDiv : JSNum → ℚ → JSNum
  | JSNum.nan, _ => JSNum.nan
  | JSNum.num q, s => JSNum.num (q / s)

/-- `q * w` where `q` is a finite number and `w` may be NaN. -/
def jsMulNum (q : ℚ) : JSNum → JSNum
  | JSNum.nan => JSNum.nan
  | JSNum.num x => JSNum.num (q * x)

/-- JavaScript addition with NaN propagation. -/
def jsAdd : JSNum → JSNum → JSNum
  | JSNum.nan, _ => JSNum.nan
  | _, JSNum.nan => JSNum.nan
  | JSNum.num a, JSNum.num b => JSNum.num (a + b)

/-- JavaScript subtraction with NaN propagation. -/
def jsSub : JSNum → JSNum → JSNum
  | JSNum.nan, _ => JSNum.nan
  | _, JSNum.nan => JSNum.nan
  | JSNum.num a, JSNum.num b => JSNum.num (a - b)

/-- `x < 0` on a JS number; false on NaN (ES `SortCompare` treats NaN as 0). -/
def jsLtZero : JSNum → Bool
  | JSNum.nan => false
  | JSNum.num q => decide (q < 0)

/-- `a >= b` as a boolean on JS numbers; false when either is NaN. -/
def jsGeB : JSNum → JSNum → Bool
  | JSNum.num a, JSNum.num b => decide (b ≤ a)
  | _, _ => false

/-- The caller's weight object: each key absent or a value, represented by
its `ToNumber` image (`index.js` only ever uses the entries numerically). -/
structure RawWeights where
  quality : Option JSNum
  reliability : Option JSNum
  value : Option JSNum
deriving DecidableEq

/-- Normalized weights as produced by `normalizeWeights` in `index.js`. -/
structure NormWeights where
  quality : JSNum
  reliability : JSNum
  value : JSNum
deriving DecidableEq

/-- `{ quality: 0.34, ...w }.quality`: a supplied value overrides the default. -/
def baseQ (w : RawWeights) : JSNum := w.quality.getD (JSNum.num (34/100))

/-- `{ reliability: 0.33, ...w }.reliability`. -/
def baseR (w : RawWeights) : JSNum := w.reliability.getD (JSNum.num (33/100))

/-- `{ value: 0.33, ...w }.value`. -/
def baseV (w : RawWeights) : JSNum := w.value.getD (JSNum.num (33/100))

/-- `Object.values(base).reduce((a, b) => a + (Number(b) || 0), 0)`. -/
def baseSum (w : RawWeights) : ℚ := numOr0 (baseQ w) + numOr0 (baseR w) + numOr0 (baseV w)

/-- `normalizeWeights` from `index.js`: merge over the default base,
sum with NaN coerced to 0, substitute 1 for a zero sum, divide each
base entry by the sum. -/
def normalizeWeights (w : RawWeights) : NormWeights :=
  let s := if baseSum w = 0 then 1 else baseSum w
  { quality := jsDiv (baseQ w) s
    reliability := jsDiv (baseR w) s
    value := jsDiv (baseV w) s }

/-- A row of `painter_list` after the SQL projection of `rankPainters`:
the three derived sub-scores are already computed by `coalesce`, so they
are plain numbers. Location fields back the WHERE clause. -/
structure Painter where
  id : ℕ
  postcode : Option String
  suburb : Option String
  area : Option String
  region : Option String
  number_of_reviews : ℚ
  quality_score : ℚ
  reliability_score : ℚ
  value_score : ℚ
deriving DecidableEq

/-- A scored row: the painter together with the weights used and its score. -/
structure ScoredPainter where
  painter : Painter
  weights : NormWeights
  score : JSNum
deriving DecidableEq

/-- `score = q*W.quality + r*W.reliability + v*W.value` (left-to-right). -/
def scoreOf (p : Painter) (W : NormWeights) : JSNum :=
  jsAdd (jsAdd (jsMulNum p.quality_score W.quality)
               (jsMulNum p.reliability_score W.reliability))
        (jsMulNum p.value_score W.value)

/-- The comparator `(a, b) => b.score - a.score` says "a strictly first". -/
def jsGtScore (a b : ScoredPainter) : Bool := jsLtZero (jsSub b.score a.score)

/-- Stable insertion step: `x` moves past exactly the elements that must
precede it and lands before the first element it need not follow. -/
def insertBy {α : Type} (gt : α → α → Bool) (x : α) : List α → List α
  | [] => [x]
  | y :: ys => if gt y x then y :: insertBy gt x ys else x :: y :: ys

/-- Stable sort matching `Array.prototype.sort` with a consistent
comparator: sorted by `gt` and ties keep their original order. -/
def sortBy {α : Type} (gt : α → α → Bool) : List α → List α
  | [] => []
  | x :: xs => insertBy gt x (sortBy gt xs)

/-- `Math.max(1, Math.min(limit, 10))` as a slice bound. -/
def jsClampLimit (limit : ℤ) : ℕ := (max 1 (min limit 10)).toNat

/-- `rows.map(p => ({...p, weights: W, score: ...}))` of `rankPainters`. -/
def scoredRows (rows : List Painter) (w : RawWeights) : List ScoredPainter :=
  let W := normalizeWeights w
  rows.map (fun p => { painter := p, weights := W, score := scoreOf p W })

/-- The pure body of `rankPainters`: score, sort descending by score,
slice to `Math.max(1, Math.min(limit, 10))`. -/
def rankList (rows : List Painter) (w : RawWeights) (limit : ℤ) : List ScoredPainter :=
  (sortBy jsGtScore (scoredRows rows w)).take (jsClampLimit limit)

/-- `rankPainters`: a record-store failure propagates, otherwise the pure
ranking runs on the fetched rows. -/
def rankPainters (fetch : Except String (List Painter)) (w : RawWeights) (limit : ℤ) :
    Except String (List ScoredPainter) :=
  fetch.map (fun rows => rankList rows w limit)

/-- `args.limit || 5` in the `service_seeking_rank_painters` handler:
an absent or zero (falsy) limit becomes the default 5. -/
def handlerLimit (arg : Option ℤ) : ℤ :=
  match arg with
  | none => 5
  | some v => if v = 0 then 5 else v

/-- `lower(x)` / JS `toLowerCase` on an ASCII character. -/
def jsToLowerChar (c : Char) : Char :=
  if 'A' ≤ c ∧ c ≤ 'Z' then Char.ofNat (c.toNat + 32) else c

/-- Lowercase a character list. -/
def lowerL (s : List Char) : List Char := s.map jsToLowerChar

/-- Case-insensitive SQL equality `lower(field) = lower($n)`; NULL never matches. -/
def sqlEqCI (field : Option String) (v : String) : Bool :=
  match field with
  | none => false
  | some f => lowerL f.toList = lowerL v.toList

/-- Exact SQL equality `field = $n`; NULL never matches. -/
def sqlEq (field : Option String) (v : String) : Bool :=
  match field with
  | none => false
  | some f => f = v

/-- The location filters of `rankPainters` (absent = not constrained). -/
structure Filters where
  postcode : Option String
  suburb : Option String
  area : Option String
  region : Option String
deriving DecidableEq

/-- The WHERE clause of `rankPainters`: each present filter is ANDed. -/
def matchesFilters (f : Filters) (p : Painter) : Bool :=
  (match f.postcode with | none => true | some v => sqlEq p.postcode v)
  && (match f.suburb with | none => true | some v => sqlEqCI p.suburb v)
  && (match f.area with | none => true | some v => sqlEqCI p.area v)
  && (match f.region with | none => true | some v => sqlEqCI p.region v)

/-- The empty filter object: no WHERE clause, the whole table is returned. -/
def emptyFilters : Filters := ⟨none, none, none, none⟩

/-- A row of the `jobs` table as selected by `analyze_job_patterns`. -/
structure Job where
  id : ℕ
  category : Option String
  subtype : Option String
  size : Option String
  total_price : Option ℚ
  job_description : Option String
  job_description_cleaned : Option String
deriving DecidableEq

/-- ASCII letter or digit, the complement of `[^a-zA-Z0-9\s]` modulo `\s`. -/
def isAlnumC (c : Char) : Bool :=
  ('a' ≤ c ∧ c ≤ 'z') ∨ ('A' ≤ c ∧ c ≤ 'Z') ∨ ('0' ≤ c ∧ c ≤ '9')

/-- Regex `\s` on the ASCII range. -/
def isSpaceJS (c : Char) : Bool :=
  c = ' ' ∨ c = '\t' ∨ c = '\n' ∨ c = '\r' ∨ c = '\x0b' ∨ c = '\x0c'

/-- Regex `\d`. -/
def isDigitC (c : Char) : Bool := '0' ≤ c ∧ c ≤ '9'

/-- Regex `\w` (word character, for `\b` boundaries). -/
def isWordC (c : Char) : Bool :=
  isDigitC c ∨ ('a' ≤ c ∧ c ≤ 'z') ∨ ('A' ≤ c ∧ c ≤ 'Z') ∨ c = '_'

/-- `String.prototype.split(' ')`: split on single spaces, keeping empties. -/
def splitSpaceAux : List Char → List Char → List (List Char)
  | [], acc => [acc.reverse]
  | c :: t, acc => if c = ' ' then acc.reverse :: splitSpaceAux t [] else splitSpaceAux t (c :: acc)

/-- `split(' ')` on a character list. -/
def splitSpace (l : List Char) : List (List Char) := splitSpaceAux l []

/-- The key-phrase extraction of `analyze_job_patterns`:
strip `[^a-zA-Z0-9\s]`, split on spaces, keep words longer than 3,
take the first 5, join with single spaces. -/
def keyPhrases (desc : List Char) : List Char :=
  let cleaned := desc.filter (fun c => isAlnumC c || isSpaceJS c)
  let words := (splitSpace cleaned).filter (fun w => w.length > 3)
  List.intercalate [' '] (words.take 5)

/-- `needle.isPrefixOf hay` decided by character equality. -/
def isPrefixL : List Char → List Char → Bool
  | [], _ => true
  | _ :: _, [] => false
  | a :: as, b :: bs => a = b && isPrefixL as bs

/-- Substring containment on character lists. -/
def containsL : List Char → List Char → Bool
  | [], n => n.isEmpty
  | h :: t, n => isPrefixL n (h :: t) || containsL t n

/-- The two ILIKE pattern shapes `analyze_job_patterns` builds:
`'%text%'` (containment) and a wildcard-free value (exact match). -/
inductive SqlPat where
  | within : List Char → SqlPat
  | exact : List Char → SqlPat
deriving DecidableEq

/-- `field ILIKE $n`; NULL never matches. -/
def ilikePat (field : Option String) (p : SqlPat) : Bool :=
  match field, p with
  | none, _ => false
  | some f, SqlPat.within n => containsL (lowerL f.toList) (lowerL n)
  | some f, SqlPat.exact v => lowerL f.toList = lowerL v

/-- The value bound to `$1`, referenced by the similarity CASE: the key-phrase
pattern when the description is long enough to push it; otherwise the next
parameter that happens to occupy `$1` (the category, or the LIMIT value as text). -/
def simParam (desc : String) (knownCat : Option String) (sampleSize : ℕ) : SqlPat :=
  if desc.length > 10 then SqlPat.within (keyPhrases desc.toList)
  else
    match knownCat with
    | some k => SqlPat.exact k.toList
    | none => SqlPat.exact (toString sampleSize).toList

/-- The WHERE clause of the similarity query: description overlap (when the
description is long enough) ANDed with the category bias
`(category = $n OR category IS NOT NULL)`. -/
def jobCond (desc : String) (knownCat : Option String) (j : Job) : Bool :=
  (if desc.length > 10 then
     ilikePat j.job_description_cleaned (SqlPat.within (keyPhrases desc.toList))
       || ilikePat j.job_description (SqlPat.within (keyPhrases desc.toList))
   else true)
  && (match knownCat with
      | some k => (j.category == some k) || j.category.isSome
      | none => true)

/-- The 3-tier `similarity_score` CASE of the SQL query. -/
def simScore (desc : String) (knownCat : Option String) (n : ℕ) (j : Job) : ℕ :=
  if ilikePat j.job_description_cleaned (simParam desc knownCat n) then 3
  else if ilikePat j.job_description (simParam desc knownCat n) then 2
  else 1

/-- `ORDER BY similarity_score DESC, id DESC`: strict precedence of `a` over `b`. -/
def jobGt (desc : String) (knownCat : Option String) (n : ℕ) (a b : Job) : Bool :=
  simScore desc knownCat n a > simScore desc knownCat n b
    || (simScore desc knownCat n a = simScore desc knownCat n b && a.id > b.id)

/-- The similarity query: filter, rank by the similarity CASE then id, LIMIT. -/
def simResult (store : List Job) (desc : String) (knownCat : Option String) (n : ℕ) : List Job :=
  (sortBy (jobGt desc knownCat n) (store.filter (jobCond desc knownCat))).take n

/-- Rows with a non-null cleaned description are the only fallback candidates. -/
def hasCleaned (j : Job) : Bool := j.job_description_cleaned.isSome

/-- The analyzed sample: the similarity rows, and when fewer than 3 came back,
the random fallback rows (`ORDER BY RANDOM() LIMIT sample_size` over rows with
a cleaned description) pushed onto the end. `shuffled` is the store in the
random order the fallback query produced. -/
def buildSample (store shuffled : List Job) (desc : String) (knownCat : Option String)
    (n : ℕ) : List Job :=
  let similar := simResult store desc knownCat n
  if similar.length < 3 then similar ++ (shuffled.filter hasCleaned).take n
  else similar

/-- The room-name vocabulary of the `specific_rooms` regex, in alternation order. -/
def roomWordsL : List (List Char) :=
  ["bedroom", "bathroom", "kitchen", "living", "lounge", "hallway", "laundry"].map String.toList

/-- First alternative of the vocabulary matching at this position. -/
def firstAlt (alts : List (List Char)) (s : List Char) : Option (List Char) :=
  alts.find? (fun w => isPrefixL w s)

/-- Fuel-driven scanner for `String.prototype.match` with a `/g` alternation
of literal words: at each position take the first alternative that matches,
consume it, and continue after it. Every step consumes at least one
character, so fuel equal to the input length is enough. -/
def jsMatchAllAux (alts : List (List Char)) : ℕ → List Char → List (List Char)
  | 0, _ => []
  | _, [] => []
  | fuel + 1, c :: rest =>
    match firstAlt alts (c :: rest) with
    | some w => w :: jsMatchAllAux alts fuel (rest.drop (w.length - 1))
    | none => jsMatchAllAux alts fuel rest

/-- All matches of the alternation over the whole input. -/
def jsMatchAll (alts : List (List Char)) (s : List Char) : List (List Char) :=
  jsMatchAllAux alts s.length s

/-- `signals.specific_rooms.length`: the number of room-word mentions. -/
def roomMentions (desc : String) : ℕ := (jsMatchAll roomWordsL (lowerL desc.toList)).length

/-- Length of the maximal digit prefix (regex `\d+`). -/
def digitRun : List Char → ℕ
  | [] => 0
  | c :: t => if isDigitC c then digitRun t + 1 else 0

/-- The number-word alternatives of the room-count regex. -/
def numberWordsL : List (List Char) :=
  ["one", "two", "three", "four", "five", "six"].map String.toList

/-- Length of `(\d+|one|two|three|four|five|six)` matching here, if any. -/
def numTokenLen (s : List Char) : Option ℕ :=
  if digitRun s > 0 then some (digitRun s)
  else (numberWordsL.find? (fun w => isPrefixL w s)).map List.length

/-- Does `(\d+|...)\s*(bed|room|bedroom)` match starting at this position?
(`bedroom` is subsumed by `bed` for a mere test.) -/
def roomCountAt (s : List Char) : Bool :=
  match numTokenLen s with
  | none => false
  | some k =>
    let s2 := (s.drop k).dropWhile (fun c => isSpaceJS c)
    isPrefixL "bed".toList s2 || isPrefixL "room".toList s2

/-- Scan for the room-count pattern; `prev` is the previous character for the
word boundary `\b` (a number token always begins with a word character). -/
def hasRoomCountAux : Option Char → List Char → Bool
  | _, [] => false
  | prev, c :: rest =>
    ((match prev with | none => true | some pc => !(isWordC pc)) && roomCountAt (c :: rest))
      || hasRoomCountAux (some c) rest

/-- `signals.has_room_count`: `/\b(\d+|one|...|six)\s*(bed|room|bedroom)/i.test`. -/
def hasRoomCount (desc : String) : Bool := hasRoomCountAux none (lowerL desc.toList)

/-- Increment a key in an insertion-ordered frequency table (JS object with
string keys preserves first-seen order). -/
def bumpTally (acc : List (String × ℕ)) (k : String) : List (String × ℕ) :=
  match acc with
  | [] => [(k, 1)]
  | (k0, c) :: t => if k0 = k then (k0, c + 1) :: t else (k0, c) :: bumpTally t k

/-- `patterns.sizes`: per-size counts over the sample, first-seen order. -/
def sizesTally (sample : List Job) : List (String × ℕ) :=
  sample.foldl (fun acc j => match j.size with | some s => bumpTally acc s | none => acc) []

/-- `(count / total * 100).toFixed(0)` then `parseInt`: round half away
from zero (values here are non-negative, so half up). -/
def pctRound (count total : ℕ) : ℤ := Int.floor (100 * (count : ℚ) / (total : ℚ) + 1/2)

/-- `sizePredictions`: entries mapped to rounded percentages and stably
sorted by descending percentage. -/
def sizePredsSorted (t : List (String × ℕ)) : List (String × ℤ) :=
  let total := (t.map Prod.snd).sum
  sortBy (fun a b => decide (a.2 > b.2)) (t.map (fun e => (e.1, pctRound e.2 total)))

/-- `response.classification.size`: null when the sample has no sizes, else
overridden by the count of room-word mentions (1 ⇒ small, 2–4 ⇒ medium),
else the most frequent size of the sample. -/
def classificationSize (sample : List Job) (rooms : ℕ) : Option String :=
  let t := sizesTally sample
  if t.isEmpty then none
  else if rooms = 1 then some "small"
  else if 2 ≤ rooms ∧ rooms ≤ 4 then some "medium"
  else (sizePredsSorted t).head?.map Prod.fst

/-- The classification-size facet of the whole `analyze_job_patterns` path:
build the sample, extract the room-mention signal, classify. -/
def analyzeSizeAt (store shuffled : List Job) (desc : String) (knownCat : Option String)
    (n : ℕ) : Option String :=
  classificationSize (buildSample store shuffled desc knownCat n) (roomMentions desc)

/-- `sample_size = 20` destructuring default in the handler; the value is
used as the LIMIT exactly as supplied. -/
def effSampleSize (arg : Option ℕ) : ℕ := arg.getD 20

/-- Modelled from the spec: the sample-size bound the spec describes,
"clamped to [5,50], default 20" — stated only to compare with the code's
`effSampleSize`, which the source does not clamp. -/
def specClampedSampleSize (arg : Option ℕ) : ℕ := min 50 (max 5 (arg.getD 20))

/-- The sample the handler analyzes for a given caller-supplied sample size. -/
def analyzeSampleOf (store shuffled : List Job) (desc : String) (knownCat : Option String)
    (arg : Option ℕ) : List Job :=
  buildSample store shuffled desc knownCat (effSampleSize arg)

/-- The skeleton every `analyze_job_patterns` response carries:
`patterns_found` (the sample count) and the `confidence` label. -/
structure AnalysisSummary where
  patterns_found : ℕ
  confidence : String
deriving DecidableEq

/-- `similarJobs.length >= 5 ? 'high' : similarJobs.length >= 3 ? 'medium' : 'low'`. -/
def confidenceOf (n : ℕ) : String :=
  if 5 ≤ n then "high" else if 3 ≤ n then "medium" else "low"

/-- The response skeleton computed from the analyzed sample. -/
def analyzeSummary (store shuffled : List Job) (desc : String) (knownCat : Option String)
    (n : ℕ) : AnalysisSummary :=
  let sample := buildSample store shuffled desc knownCat n
  ⟨sample.length, confidenceOf sample.length⟩

/-- The `analyze_job_patterns` operation: a record-store failure propagates
as a distinct error, otherwise the (possibly sparse) response skeleton is
always produced from whatever sample the queries returned. -/
def analyzePatterns (fetch : Except String (List Job)) (shuffled : List Job) (desc : String)
    (knownCat : Option String) (n : ℕ) : Except String AnalysisSummary :=
  fetch.map (fun store => analyzeSummary store shuffled desc knownCat n)

/-- A weight entry whose `ToNumber` image is a number (not NaN). -/
def numericB : Option JSNum → Bool
  | none => true
  | some JSNum.nan => false
  | some (JSNum.num _) => true

/-- All three caller-supplied weight entries are numeric. -/
def NumericWeights (w : RawWeights) : Prop :=
  numericB w.quality = true ∧ numericB w.reliability = true ∧ numericB w.value = true

/-- A weight entry that is absent or a non-negative number. -/
def wEntryOk : Option JSNum → Prop
  | none => True
  | some JSNum.nan => False
  | some (JSNum.num q) => 0 ≤ q

/-- A scored row whose score is an actual number. -/
def NumScore (a : ScoredPainter) : Prop := ∃ q, a.score = JSNum.num q

/-- "a scored at least b" on rows with numeric scores. -/
def scoreGe (a b : ScoredPainter) : Prop := jsGeB a.score b.score = true

/-- The caller supplied no weights (`weights = {}`). -/
def rwNone : RawWeights := ⟨none, none, none⟩

/-- The caller supplied `{quality: 0, reliability: 0, value: 0}`. -/
def rwAllZero : RawWeights :=
  ⟨some (JSNum.num 0), some (JSNum.num 0), some (JSNum.num 0)⟩

/-- Fixture: a painter with 10 reviews and sub-scores (3, 1, 1). -/
def pA : Painter := ⟨1, none, none, none, none, 10, 3, 1, 1⟩

/-- Fixture: a painter with 50 reviews and the same sub-scores as `pA`. -/
def pB : Painter := ⟨2, none, none, none, none, 50, 3, 1, 1⟩

/-- The customer description of the spec's classification scenario. -/
def descBedrooms : String := "paint my 2 bedrooms"

/-- Fixture for C5: three jobs matching "paint bedrooms", all sized large. -/
def jobsAllLarge : List Job :=
  [⟨1, none, none, some "large", none, none, some "cheap paint bedrooms job"⟩,
   ⟨2, none, none, some "large", none, none, some "cheap paint bedrooms job"⟩,
   ⟨3, none, none, some "large", none, none, some "cheap paint bedrooms job"⟩]

/-- Fixture for C6: three jobs, none with a cleaned description, none
matching the query phrase. -/
def jobsNoCleaned : List Job :=
  [⟨1, none, none, some "small", none, some "the quick brown fox", none⟩,
   ⟨2, none, none, some "small", none, some "the quick brown fox", none⟩,
   ⟨3, none, none, some "small", none, some "the quick brown fox", none⟩]

/-- Fixture for C7: five jobs that all match the query phrase. -/
def jobsFiveMatch : List Job :=
  [⟨1, none, none, some "large", none, none, some "cheap paint bedrooms job"⟩,
   ⟨2, none, none, some "large", none, none, some "cheap paint bedrooms job"⟩,
   ⟨3, none, none, some "large", none, none, some "cheap paint bedrooms job"⟩,
   ⟨4, none, none, some "large", none, none, some "cheap paint bedrooms job"⟩,
   ⟨5, none, none, some "large", none, none, some "cheap paint bedrooms job"⟩]

/-- Fixture for C10: jobs 1 and 2 match the query phrase, 3–5 do not,
and every job has a cleaned description. -/
def jobsTwoMatch : List Job :=
  [⟨1, none, none, some "large", none, none, some "cheap paint bedrooms job a"⟩,
   ⟨2, none, none, some "large", none, none, some "paint bedrooms full house"⟩,
   ⟨3, none, none, some "large", none, none, some "render exterior walls"⟩,
   ⟨4, none, none, some "large", none, none, some "render exterior walls"⟩,
   ⟨5, none, none, some "large", none, none, some "render exterior walls"⟩]

/-- The first element of `jobsTwoMatch` (returned by both queries in C10). -/
def jobTM1 : Job := ⟨1, none, none, some "large", none, none, some "cheap paint bedrooms job a"⟩

/-! ## General lemmas about the stable sort and the weight machinery -/

theorem length_insertBy {α : Type} (gt : α → α → Bool) (x : α) (l : List α) :
    (insertBy gt x l).length = l.length + 1 := by
  induction l with
  | nil => rfl
  | cons y ys ih =>
    simp only [insertBy]
    split
    · simp [ih]
    · simp

theorem length_sortBy {α : Type} (gt : α → α → Bool) (l : List α) :
    (sortBy gt l).length = l.length := by
  induction l with
  | nil => rfl
  | cons x xs ih => simp [sortBy, length_insertBy, ih]

theorem perm_insertBy {α : Type} (gt : α → α → Bool) (x : α) (l : List α) :
    (insertBy gt x l).Perm (x :: l) := by
  induction l with
  | nil => exact List.Perm.refl _
  | cons y ys ih =>
    simp only [insertBy]
    split
    · exact ((ih.cons y).trans (List.Perm.swap x y ys))
    · exact List.Perm.refl _

theorem perm_sortBy {α : Type} (gt : α → α → Bool) (l : List α) :
    (sortBy gt l).Perm l := by
  induction l with
  | nil => exact List.Perm.refl _
  | cons x xs ih => exact (perm_insertBy gt x (sortBy gt xs)).trans (ih.cons x)

theorem mem_insertBy {α : Type} (gt : α → α → Bool) (x a : α) (l : List α) :
    a ∈ insertBy gt x l ↔ a = x ∨ a ∈ l := by
  rw [(perm_insertBy gt x l).mem_iff]
  simp

theorem pairwise_insertBy {α : Type} (gt : α → α → Bool) (P : α → Prop)
    (hasym : ∀ a b, gt a b = true → gt b a = false)
    (hnt : ∀ a b c, P a → P b → P c → gt b a = false → gt c b = false → gt c a = false)
    (x : α) (l : List α) (hPx : P x) (hPl : ∀ a ∈ l, P a)
    (hl : List.Pairwise (fun a b => gt b a = false) l) :
    List.Pairwise (fun a b => gt b a = false) (insertBy gt x l) := by
  induction l with
  | nil => simp [insertBy]
  | cons y ys ih =>
    rcases hl with _ | ⟨hy, hys⟩
    simp only [insertBy]
    split
    · rename_i hgt
      refine List.Pairwise.cons ?_ (ih (fun a ha => hPl a (List.mem_cons_of_mem y ha)) hys)
      intro z hz
      rcases (mem_insertBy gt x z ys).mp hz with rfl | hzys
      · exact hasym y z hgt
      · exact hy z hzys
    · rename_i hgt
      have hyx : gt y x = false := by simpa using hgt
      refine List.Pairwise.cons ?_ (List.Pairwise.cons hy hys)
      intro z hz
      rcases List.mem_cons.mp hz with rfl | hzys
      · exact hyx
      · exact hnt x y z hPx (hPl y (List.mem_cons_self y ys))
          (hPl z (List.mem_cons_of_mem y hzys)) hyx (hy z hzys)

theorem pairwise_sortBy {α : Type} (gt : α → α → Bool) (P : α → Prop)
    (hasym : ∀ a b, gt a b = true → gt b a = false)
    (hnt : ∀ a b c, P a → P b → P c → gt b a = false → gt c b = false → gt c a = false)
    (l : List α) (hPl : ∀ a ∈ l, P a) :
    List.Pairwise (fun a b => gt b a = false) (sortBy gt l) := by
  induction l with
  | nil => simp [sortBy]
  | cons x xs ih =>
    refine pairwise_insertBy gt P hasym hnt x (sortBy gt xs)
      (hPl x (List.mem_cons_self x xs)) ?_ (ih (fun a ha => hPl a (List.mem_cons_of_mem x ha)))
    intro a ha
    exact hPl a (List.mem_cons_of_mem x ((perm_sortBy gt xs).mem_iff.mp ha))

theorem jsGtScore_asymm (a b : ScoredPainter) (h : jsGtScore a b = true) :
    jsGtScore b a = false := by
  rcases ha : a.score with _ | qa <;> rcases hb : b.score with _ | qb <;>
    simp [jsGtScore, jsSub, jsLtZero, ha, hb] at h ⊢
  linarith

theorem jsGtScore_score_ne (a b : ScoredPainter) (h : jsGtScore a b = true) :
    a.score ≠ b.score := by
  rcases ha : a.score with _ | qa <;> rcases hb : b.score with _ | qb <;>
    simp [jsGtScore, jsSub, jsLtZero, ha, hb] at h ⊢
  intro hq
  rw [hq] at h
  linarith

theorem jsGtScore_negtrans (a b c : ScoredPainter) (hA : NumScore a) (hB : NumScore b)
    (hC : NumScore c) (h1 : jsGtScore b a = false) (h2 : jsGtScore c b = false) :
    jsGtScore c a = false := by
  rcases hA with ⟨qa, ha⟩
  rcases hB with ⟨qb, hb⟩
  rcases hC with ⟨qc, hc⟩
  simp [jsGtScore, jsSub, jsLtZero, ha, hb, hc] at h1 h2 ⊢
  linarith

theorem filter_insertBy_score (x : ScoredPainter) (l : List ScoredPainter) (s : JSNum) :
    (insertBy jsGtScore x l).filter (fun a => decide (a.score = s))
      = if x.score = s then x :: l.filter (fun a => decide (a.score = s))
        else l.filter (fun a => decide (a.score = s)) := by
  induction l with
  | nil =>
    by_cases hxs : x.score = s <;> simp [insertBy, List.filter, hxs]
  | cons y ys ih =>
    simp only [insertBy]
    split
    · rename_i hgt
      have hne : y.score ≠ x.score := jsGtScore_score_ne y x hgt
      by_cases hxs : x.score = s
      · have hys : y.score ≠ s := hxs ▸ hne
        simp only [List.filter_cons, ih]
        simp [hxs, hys]
      · simp only [List.filter_cons, ih]
        simp [hxs]
    · by_cases hxs : x.score = s <;> simp [List.filter_cons, hxs]

theorem filter_sortBy_score (l : List ScoredPainter) (s : JSNum) :
    (sortBy jsGtScore l).filter (fun a => decide (a.score = s))
      = l.filter (fun a => decide (a.score = s)) := by
  induction l with
  | nil => simp [sortBy]
  | cons x xs ih =>
    by_cases hxs : x.score = s <;>
      simp [sortBy, filter_insertBy_score, List.filter_cons, ih, hxs]

theorem baseQ_ok (w : RawWeights) (h : wEntryOk w.quality) :
    ∃ q, baseQ w = JSNum.num q ∧ 0 ≤ q := by
  rcases hw : w.quality with _ | j
  · exact ⟨34/100, by simp [baseQ, hw], by norm_num⟩
  · rcases j with _ | q
    · rw [hw] at h; exact absurd h (by simp [wEntryOk])
    · rw [hw] at h; exact ⟨q, by simp [baseQ, hw], h⟩

theorem baseR_ok (w : RawWeights) (h : wEntryOk w.reliability) :
    ∃ q, baseR w = JSNum.num q ∧ 0 ≤ q := by
  rcases hw : w.reliability with _ | j
  · exact ⟨33/100, by simp [baseR, hw], by norm_num⟩
  · rcases j with _ | q
    · rw [hw] at h; exact absurd h (by simp [wEntryOk])
    · rw [hw] at h; exact ⟨q, by simp [baseR, hw], h⟩

theorem baseV_ok (w : RawWeights) (h : wEntryOk w.value) :
    ∃ q, baseV w = JSNum.num q ∧ 0 ≤ q := by
  rcases hw : w.value with _ | j
  · exact ⟨33/100, by simp [baseV, hw], by norm_num⟩
  · rcases j with _ | q
    · rw [hw] at h; exact absurd h (by simp [wEntryOk])
    · rw [hw] at h; exact ⟨q, by simp [baseV, hw], h⟩

theorem normalizeWeights_num (w : RawWeights) (hw : NumericWeights w) :
    ∃ a b c : ℚ, normalizeWeights w = ⟨JSNum.num a, JSNum.num b, JSNum.num c⟩ := by
  obtain ⟨h1, h2, h3⟩ := hw
  have hq : ∃ q, baseQ w = JSNum.num q := by
    rcases hx : w.quality with _ | j
    · exact ⟨34/100, by simp [baseQ, hx]⟩
    · rcases j with _ | q
      · rw [hx] at h1; simp [numericB] at h1
      · exact ⟨q, by simp [baseQ, hx]⟩
  have hrr : ∃ q, baseR w = JSNum.num q := by
    rcases hx : w.reliability with _ | j
    · exact ⟨33/100, by simp [baseR, hx]⟩
    · rcases j with _ | q
      · rw [hx] at h2; simp [numericB] at h2
      · exact ⟨q, by simp [baseR, hx]⟩
  have hvv : ∃ q, baseV w = JSNum.num q := by
    rcases hx : w.value with _ | j
    · exact ⟨33/100, by simp [baseV, hx]⟩
    · rcases j with _ | q
      · rw [hx] at h3; simp [numericB] at h3
      · exact ⟨q, by simp [baseV, hx]⟩
  obtain ⟨qa, ha⟩ := hq
  obtain ⟨qb, hb⟩ := hrr
  obtain ⟨qc, hc⟩ := hvv
  refine ⟨qa / (if baseSum w = 0 then 1 else baseSum w),
    qb / (if baseSum w = 0 then 1 else baseSum w),
    qc / (if baseSum w = 0 then 1 else baseSum w), ?_⟩
  simp [normalizeWeights, ha, hb, hc, jsDiv]

theorem scoreOf_num (p : Painter) (a b c : ℚ) :
    scoreOf p ⟨JSNum.num a, JSNum.num b, JSNum.num c⟩
      = JSNum.num (p.quality_score * a + p.reliability_score * b + p.value_score * c) := rfl

theorem scoredRows_numscore (rows : List Painter) (w : RawWeights) (hw : NumericWeights w) :
    ∀ x ∈ scoredRows rows w, NumScore x := by
  obtain ⟨a, b, c, hW⟩ := normalizeWeights_num w hw
  intro x hx
  simp only [scoredRows, List.mem_map] at hx
  obtain ⟨p, hp, rfl⟩ := hx
  exact ⟨_, by rw [hW, scoreOf_num]⟩

theorem rankList_length (rows : List Painter) (w : RawWeights) (L : ℤ) :
    (rankList rows w L).length = min (jsClampLimit L) rows.length := by
  simp [rankList, List.length_take, length_sortBy, scoredRows]

/-! ## Claim theorems -/

/-- C1, counterexample. The claim says the three output weights sum to
1.0 within 1e-9 for every input including all-zero. For the all-zero
supplied weights, the code's zero-sum guard divides the zero base entries
by the substituted 1, so the outputs are (0, 0, 0) and their sum 0 misses
1 by far more than 1e-9. -/
theorem normalizeWeights_allzero_sum_zero :
    normalizeWeights rwAllZero = ⟨JSNum.num 0, JSNum.num 0, JSNum.num 0⟩
    ∧ ¬ (|(0 : ℚ) + 0 + 0 - 1| ≤ 1 / 1000000000) := by
  constructor
  · simp [normalizeWeights, rwAllZero, baseQ, baseR, baseV, baseSum, numOr0, jsDiv]
  · norm_num

/-- C1, amended. When every supplied weight entry coerces to a
non-negative number (absent entries take the positive defaults) and the
coerced sum is nonzero, the three outputs are non-negative numbers summing
exactly to 1. (The all-zero-sum case yields all-zero outputs, and a
non-numeric entry yields NaN, so both had to be excluded.) -/
theorem normalizeWeights_nonneg_sum_one (w : RawWeights)
    (hq : wEntryOk w.quality) (hr : wEntryOk w.reliability) (hv : wEntryOk w.value)
    (hs : baseSum w ≠ 0) :
    ∃ a b c : ℚ, normalizeWeights w = ⟨JSNum.num a, JSNum.num b, JSNum.num c⟩
      ∧ 0 ≤ a ∧ 0 ≤ b ∧ 0 ≤ c ∧ a + b + c = 1 := by
  obtain ⟨bq, hbq, hbq0⟩ := baseQ_ok w hq
  obtain ⟨br, hbr, hbr0⟩ := baseR_ok w hr
  obtain ⟨bv, hbv, hbv0⟩ := baseV_ok w hv
  have hsum : baseSum w = bq + br + bv := by simp [baseSum, hbq, hbr, hbv, numOr0]
  have hspos : 0 < baseSum w := by
    rcases lt_or_eq_of_le (by rw [hsum]; positivity : (0:ℚ) ≤ baseSum w) with h | h
    · exact h
    · exact absurd h.symm hs
  refine ⟨bq / baseSum w, br / baseSum w, bv / baseSum w, ?_, ?_, ?_, ?_, ?_⟩
  · simp [normalizeWeights, if_neg hs, hbq, hbr, hbv, jsDiv]
  · exact div_nonneg hbq0 hspos.le
  · exact div_nonneg hbr0 hspos.le
  · exact div_nonneg hbv0 hspos.le
  · rw [div_add_div_same, div_add_div_same, hsum, div_self (by rw [← hsum]; exact hs)]

/-- C1, witness: `{quality: 2}` satisfies the hypotheses and normalizes to
non-negative weights summing to 1. -/
theorem normalizeWeights_nonneg_sum_one_witness :
    baseSum ⟨some (JSNum.num 2), none, none⟩ ≠ 0
    ∧ ∃ a b c : ℚ,
        normalizeWeights ⟨some (JSNum.num 2), none, none⟩
          = ⟨JSNum.num a, JSNum.num b, JSNum.num c⟩
        ∧ 0 ≤ a ∧ 0 ≤ b ∧ 0 ≤ c ∧ a + b + c = 1 :=
  have hs : baseSum ⟨some (JSNum.num 2), none, none⟩ ≠ 0 := by
    simp [baseSum, baseQ, baseR, baseV, numOr0]
    norm_num
  ⟨hs, normalizeWeights_nonneg_sum_one ⟨some (JSNum.num 2), none, none⟩
    (by norm_num [wEntryOk]) trivial trivial hs⟩

/-- C2, counterexample. The claim says zero-sum supplied weights make the
default vector the base, so the output should equal the normalized default
(0.34, 0.33, 0.33). In the code the supplied zeros override the defaults
in the spread, so the output is (0, 0, 0) instead. -/
theorem normalizeWeights_zero_input_ne_default :
    normalizeWeights rwAllZero = ⟨JSNum.num 0, JSNum.num 0, JSNum.num 0⟩
    ∧ normalizeWeights rwNone
        = ⟨JSNum.num (34/100), JSNum.num (33/100), JSNum.num (33/100)⟩
    ∧ normalizeWeights rwAllZero ≠ normalizeWeights rwNone := by
  have h0 : normalizeWeights rwAllZero = ⟨JSNum.num 0, JSNum.num 0, JSNum.num 0⟩ := by
    simp [normalizeWeights, rwAllZero, baseQ, baseR, baseV, baseSum, numOr0, jsDiv]
  have hd : normalizeWeights rwNone
      = ⟨JSNum.num (34/100), JSNum.num (33/100), JSNum.num (33/100)⟩ := by
    simp [normalizeWeights, rwNone, baseQ, baseR, baseV, baseSum, numOr0, jsDiv]
    norm_num
  refine ⟨h0, hd, ?_⟩
  rw [h0, hd]
  intro h
  have := congrArg NormWeights.quality h
  simp at this
  exact absurd this (by norm_num)

/-- C2, amended. Only an absent weight object leaves the default base in
place: no supplied weights normalize to exactly (0.34, 0.33, 0.33), while
all-zero supplied weights keep the supplied zeros as the base (the zero-sum
guard merely substitutes 1 as the divisor), producing (0, 0, 0). -/
theorem normalizeWeights_default_base_cases :
    normalizeWeights rwNone
      = ⟨JSNum.num (34/100), JSNum.num (33/100), JSNum.num (33/100)⟩
    ∧ normalizeWeights rwAllZero = ⟨JSNum.num 0, JSNum.num 0, JSNum.num 0⟩ := by
  constructor
  · simp [normalizeWeights, rwNone, baseQ, baseR, baseV, baseSum, numOr0, jsDiv]
    norm_num
  · simp [normalizeWeights, rwAllZero, baseQ, baseR, baseV, baseSum, numOr0, jsDiv]

/-- C3, counterexample. The claim says equal-score candidates are ordered
by descending review count. Painters `pA` (10 reviews) and `pB` (50 reviews)
tie on score under the default weights, yet the ranking keeps the fetch
order `[pA, pB]` — the comparator `(a, b) => b.score - a.score` never looks
at review counts, so the 50-review painter is NOT promoted. -/
theorem rank_tie_keeps_fetch_order :
    (rankList [pA, pB] rwNone 5).map (fun s => s.painter.id) = [1, 2]
    ∧ scoreOf pA (normalizeWeights rwNone) = scoreOf pB (normalizeWeights rwNone)
    ∧ pA.number_of_reviews < pB.number_of_reviews := by
  have hW : normalizeWeights rwNone
      = ⟨JSNum.num (34/100), JSNum.num (33/100), JSNum.num (33/100)⟩ := by
    simp [normalizeWeights, baseQ, baseR, baseV, baseSum, numOr0, jsDiv, rwNone]
    norm_num
  refine ⟨?_, ?_, ?_⟩
  · simp [rankList, scoredRows, hW, sortBy, insertBy, jsGtScore, jsSub, jsLtZero, scoreOf,
      jsMulNum, jsAdd, jsClampLimit, pA, pB]
  · simp [hW, scoreOf, jsMulNum, jsAdd, pA, pB]
  · simp [pA, pB]
    norm_num

/-- C3, amended. For a fixed row list and numeric weights the ranking is a
deterministic pure function of its inputs, its output is weakly descending
by composite score, and the sort is stable: the rows carrying any given
score appear in exactly their fetch order (rather than by review count). -/
theorem rankList_sorted_stable (rows : List Painter) (w : RawWeights) (L : ℤ)
    (hw : NumericWeights w) :
    List.Pairwise scoreGe (rankList rows w L)
    ∧ ∀ s : JSNum,
        (sortBy jsGtScore (scoredRows rows w)).filter (fun a => decide (a.score = s))
          = (scoredRows rows w).filter (fun a => decide (a.score = s)) := by
  constructor
  · have hP := pairwise_sortBy jsGtScore NumScore jsGtScore_asymm jsGtScore_negtrans
      (scoredRows rows w) (scoredRows_numscore rows w hw)
    have hmem : ∀ x ∈ sortBy jsGtScore (scoredRows rows w), NumScore x := by
      intro x hx
      exact scoredRows_numscore rows w hw x ((perm_sortBy _ _).mem_iff.mp hx)
    have hS : List.Pairwise scoreGe (sortBy jsGtScore (scoredRows rows w)) := by
      refine hP.imp_of_mem ?_
      intro a b ha hb hgt
      obtain ⟨qa, hqa⟩ := hmem a ha
      obtain ⟨qb, hqb⟩ := hmem b hb
      simp [jsGtScore, jsSub, jsLtZero, hqa, hqb] at hgt
      simp [scoreGe, jsGeB, hqa, hqb]
      linarith
    exact hS.sublist (List.take_sublist _ _)
  · intro s
    exact filter_sortBy_score (scoredRows rows w) s

/-- C3, witness: the default weight object is numeric, and the ranking of
`[pA, pB]` is weakly descending with score-stable order. -/
theorem rankList_sorted_stable_witness :
    NumericWeights rwNone
    ∧ (List.Pairwise scoreGe (rankList [pA, pB] rwNone 5)
       ∧ ∀ s : JSNum,
           (sortBy jsGtScore (scoredRows [pA, pB] rwNone)).filter
               (fun a => decide (a.score = s))
             = (scoredRows [pA, pB] rwNone).filter (fun a => decide (a.score = s))) :=
  ⟨⟨rfl, rfl, rfl⟩, rankList_sorted_stable [pA, pB] rwNone 5 ⟨rfl, rfl, rfl⟩⟩

/-- C4, counterexample. The claim says requesting limit = 0 returns at most
one result. At the exposed tool interface `args.limit || 5` turns the falsy
0 into the default 5, so with two candidates in the store the call returns
both of them. -/
theorem rank_limit_zero_returns_two :
    (rankList [pA, pB] rwNone (handlerLimit (some 0))).length = 2 ∧ 1 < 2 := by
  constructor
  · rw [rankList_length]
    rfl
  · norm_num

/-- C4, amended. The length of the returned sequence is
`min(max(1, min(L, 10)), candidateCount)` for the limit `L` the ranking
function actually receives; the exposed handler replaces a missing or zero
(falsy) limit by 5 before calling it, so limit = 0 yields up to 5 results,
while limit = 999 still yields at most 10. -/
theorem rankList_length_clamped (rows : List Painter) (w : RawWeights) (arg : Option ℤ) :
    (rankList rows w (handlerLimit arg)).length
      = min ((max 1 (min (handlerLimit arg) 10)).toNat) rows.length
    ∧ handlerLimit (some 0) = 5 ∧ handlerLimit none = 5
    ∧ (rankList rows w (handlerLimit (some 999))).length ≤ 10 := by
  refine ⟨rankList_length rows w _, rfl, rfl, ?_⟩
  rw [rankList_length]
  simp [handlerLimit, jsClampLimit]

/-- C5, counterexample. The claim says "paint my 2 bedrooms" yields size
"medium" because a 2-room count is detected. The room-count regex does fire,
but the size override counts room-word MENTIONS (`specific_rooms.length`),
and the description mentions "bedroom" once — so the classification is
"small", not "medium", even over a sample whose every size is "large". -/
theorem two_bedrooms_classified_small :
    hasRoomCount descBedrooms = true
    ∧ roomMentions descBedrooms = 1
    ∧ analyzeSizeAt jobsAllLarge jobsAllLarge descBedrooms none 20 = some "small"
    ∧ analyzeSizeAt jobsAllLarge jobsAllLarge descBedrooms none 20 ≠ some "medium" := by
  refine ⟨by decide, by decide, by decide, by decide⟩

/-- C5, amended. When the sample contributes at least one size, the size
facet is driven by the number of room-word mentions in the description:
exactly one mention forces "small", two to four mentions force "medium",
and otherwise the most frequent size of the sample is reported. In
particular "paint my 2 bedrooms" (one mention of "bedroom") yields "small". -/
theorem classification_size_mention_rule (store shuffled : List Job) (desc : String)
    (k : Option String) (n : ℕ)
    (hne : sizesTally (buildSample store shuffled desc k n) ≠ []) :
    (roomMentions desc = 1 → analyzeSizeAt store shuffled desc k n = some "small")
    ∧ (2 ≤ roomMentions desc ∧ roomMentions desc ≤ 4 →
        analyzeSizeAt store shuffled desc k n = some "medium")
    ∧ (roomMentions desc ≠ 1 → ¬(2 ≤ roomMentions desc ∧ roomMentions desc ≤ 4) →
        analyzeSizeAt store shuffled desc k n
          = (sizePredsSorted (sizesTally (buildSample store shuffled desc k n))).head?.map
              Prod.fst) := by
  have hne' : (sizesTally (buildSample store shuffled desc k n)).isEmpty = false := by
    simpa [List.isEmpty_iff] using hne
  refine ⟨?_, ?_, ?_⟩
  · intro h1
    simp [analyzeSizeAt, classificationSize, hne', h1]
  · intro h24
    have h1 : ¬ roomMentions desc = 1 := by omega
    simp [analyzeSizeAt, classificationSize, hne', h1, h24]
  · intro h1 h24
    simp [analyzeSizeAt, classificationSize, hne', h1, h24]

/-- C5, witness: over the all-large sample the tally is non-empty and the
single "bedroom" mention classifies the scenario description as "small". -/
theorem classification_size_mention_rule_witness :
    sizesTally (buildSample jobsAllLarge jobsAllLarge descBedrooms none 20) ≠ []
    ∧ analyzeSizeAt jobsAllLarge jobsAllLarge descBedrooms none 20 = some "small" :=
  ⟨by decide,
   (classification_size_mention_rule jobsAllLarge jobsAllLarge descBedrooms none 20
      (by decide)).1 (by decide)⟩

/-- C6, counterexample. The claim says a sparse similarity result is always
topped up to at least `min(3, total records)`. The fallback query demands
`job_description_cleaned IS NOT NULL`; with three records that all lack a
cleaned description and match nothing, the similarity query returns 0 rows,
the fallback also returns 0 rows, and the analyzed sample stays empty even
though three records exist. -/
theorem fallback_empty_without_cleaned_descriptions :
    (simResult jobsNoCleaned descBedrooms none 20).length < 3
    ∧ buildSample jobsNoCleaned jobsNoCleaned descBedrooms none 20 = []
    ∧ jobsNoCleaned.length = 3
    ∧ ¬ (min 3 jobsNoCleaned.length
          ≤ (buildSample jobsNoCleaned jobsNoCleaned descBedrooms none 20).length) := by
  refine ⟨by decide, by decide, by decide, by decide⟩

/-- C6, amended. When the similarity query yields fewer than 3 jobs the
fallback rows are appended, and — provided the sample size is at least 3 —
the analyzed sample count is at least `min(3, c)` where `c` counts the
records that HAVE a cleaned description (not all records, as the claim said). -/
theorem fallback_sample_lower_bound (store shuffled : List Job) (desc : String)
    (k : Option String) (n : ℕ)
    (hperm : shuffled.Perm store) (hn : 3 ≤ n)
    (hfew : (simResult store desc k n).length < 3) :
    min 3 ((store.filter hasCleaned).length)
      ≤ (buildSample store shuffled desc k n).length := by
  have hc : (shuffled.filter hasCleaned).length = (store.filter hasCleaned).length :=
    (hperm.filter hasCleaned).length_eq
  simp only [buildSample, if_pos hfew, List.length_append, List.length_take, hc]
  omega

/-- C6, witness: the empty store satisfies the hypotheses and the bound. -/
theorem fallback_sample_lower_bound_witness :
    ([] : List Job).Perm [] ∧ 3 ≤ 3 ∧ (simResult [] descBedrooms none 3).length < 3
    ∧ min 3 ((([] : List Job).filter hasCleaned).length)
        ≤ (buildSample [] [] descBedrooms none 3).length :=
  ⟨List.Perm.refl [], by norm_num, by decide,
   fallback_sample_lower_bound [] [] descBedrooms none 3 (List.Perm.refl []) (by norm_num)
     (by decide)⟩

/-- C7, counterexample. The claim says the sample size actually used is the
caller's value clamped into [5, 50]. The handler only applies the
destructuring default 20 and passes the value straight into the LIMITs:
a caller-supplied 0 is used as 0, so over a store of five matching records
the analyzed sample is empty, whereas the clamped bound 5 would sample all
five records. -/
theorem sample_size_not_clamped :
    effSampleSize (some 0) = 0
    ∧ specClampedSampleSize (some 0) = 5
    ∧ analyzeSampleOf jobsFiveMatch jobsFiveMatch descBedrooms none (some 0) = []
    ∧ (buildSample jobsFiveMatch jobsFiveMatch descBedrooms none
        (specClampedSampleSize (some 0))).length = 5 := by
  refine ⟨rfl, rfl, by decide, by decide⟩

/-- C7, amended. The sample-size bound actually used is the caller's value
verbatim (20 only when omitted): the similarity query returns exactly
`min(sample_size, matches)` rows for ANY supplied value, with no [5, 50]
clamping — the declared JSON-schema bounds are never enforced. -/
theorem sample_size_used_verbatim (store : List Job) (desc : String) (k : Option String)
    (m : ℕ) :
    (simResult store desc k (effSampleSize (some m))).length
      = min m (store.filter (jobCond desc k)).length
    ∧ effSampleSize none = 20 := by
  constructor
  · simp [simResult, effSampleSize, List.length_take, length_sortBy]
  · rfl

/-- C8, confirmed. Neither operation fails on missing data. Ranking: a
store fetch that succeeds with zero candidates under the empty filter set
returns the well-formed empty list, not an error. Analysis: a store with no
records still yields the well-formed sparse response (sample count 0,
confidence "low"), not an error. In both operations only a record-store
failure produces an `error` value, which can never be confused with the
empty or sparse `ok` result. -/
theorem empty_result_is_not_error (w : RawWeights) (L : ℤ) (shuffled : List Job)
    (desc : String) (k : Option String) (n : ℕ) :
    rankPainters (Except.ok (List.filter (matchesFilters emptyFilters) ([] : List Painter)))
        w L = Except.ok []
    ∧ (∀ e : String, rankPainters (Except.error e) w L = Except.error e)
    ∧ (∀ e : String,
        (Except.error e : Except String (List ScoredPainter)) ≠ Except.ok [])
    ∧ analyzePatterns (Except.ok []) [] desc k n = Except.ok ⟨0, "low"⟩
    ∧ (∀ e : String, analyzePatterns (Except.error e) shuffled desc k n = Except.error e)
    ∧ (∀ e : String,
        (Except.error e : Except String AnalysisSummary) ≠ Except.ok ⟨0, "low"⟩) := by
  refine ⟨?_, ?_, ?_, ?_, ?_, ?_⟩
  · simp [rankPainters, rankList, scoredRows, sortBy, Except.map]
  · intro e; rfl
  · intro e h; exact Except.noConfusion h
  · simp [analyzePatterns, analyzeSummary, buildSample, simResult, sortBy, confidenceOf,
      Except.map]
  · intro e; rfl
  · intro e h; exact Except.noConfusion h

/-- C9, confirmed. For any candidate and any normalized non-negative weight
vector, raising any single sub-score while fixing the weights and the other
two sub-scores never lowers the composite score. -/
theorem score_monotone_in_subscores (p : Painter) (wq wr wv q2 r2 v2 : ℚ)
    (hq : 0 ≤ wq) (hr : 0 ≤ wr) (hv : 0 ≤ wv) (hsum : wq + wr + wv = 1) :
    (p.quality_score ≤ q2 →
      jsGeB (scoreOf { p with quality_score := q2 }
          ⟨JSNum.num wq, JSNum.num wr, JSNum.num wv⟩)
        (scoreOf p ⟨JSNum.num wq, JSNum.num wr, JSNum.num wv⟩) = true)
    ∧ (p.reliability_score ≤ r2 →
      jsGeB (scoreOf { p with reliability_score := r2 }
          ⟨JSNum.num wq, JSNum.num wr, JSNum.num wv⟩)
        (scoreOf p ⟨JSNum.num wq, JSNum.num wr, JSNum.num wv⟩) = true)
    ∧ (p.value_score ≤ v2 →
      jsGeB (scoreOf { p with value_score := v2 }
          ⟨JSNum.num wq, JSNum.num wr, JSNum.num wv⟩)
        (scoreOf p ⟨JSNum.num wq, JSNum.num wr, JSNum.num wv⟩) = true) := by
  refine ⟨?_, ?_, ?_⟩ <;> intro hle
  · simp only [scoreOf_num, jsGeB, decide_eq_true_eq]
    have := mul_le_mul_of_nonneg_right hle hq
    linarith
  · simp only [scoreOf_num, jsGeB, decide_eq_true_eq]
    have := mul_le_mul_of_nonneg_right hle hr
    linarith
  · simp only [scoreOf_num, jsGeB, decide_eq_true_eq]
    have := mul_le_mul_of_nonneg_right hle hv
    linarith

/-- C9, witness: raising `pA`'s quality score from 3 to 4 under the
normalized default weights does not lower its score. -/
theorem score_monotone_in_subscores_witness :
    (0 : ℚ) ≤ 34/100 ∧ (0 : ℚ) ≤ 33/100 ∧ (34/100 : ℚ) + 33/100 + 33/100 = 1
    ∧ jsGeB (scoreOf { pA with quality_score := 4 }
          ⟨JSNum.num (34/100), JSNum.num (33/100), JSNum.num (33/100)⟩)
        (scoreOf pA ⟨JSNum.num (34/100), JSNum.num (33/100), JSNum.num (33/100)⟩) = true :=
  ⟨by norm_num, by norm_num, by norm_num,
   (score_monotone_in_subscores pA (34/100) (33/100) (33/100) 4 0 0
      (by norm_num) (by norm_num) (by norm_num) (by norm_num)).1 (by norm_num [pA])⟩

/-- C10, confirmed. With a similarity result of 2 jobs the random fallback
rows are appended to the rows already fetched: the analyzed sample is the
concatenation, its size reaches `sample_size + 2` (here 5 + 2 = 7, more
than the requested 5), and job 1 — matched by the similarity query and
drawn again by the fallback — appears twice. -/
theorem fallback_appends_and_can_exceed_sample_size :
    buildSample jobsTwoMatch jobsTwoMatch descBedrooms none 5
      = simResult jobsTwoMatch descBedrooms none 5
          ++ (jobsTwoMatch.filter hasCleaned).take 5
    ∧ (simResult jobsTwoMatch descBedrooms none 5).length = 2
    ∧ (buildSample jobsTwoMatch jobsTwoMatch descBedrooms none 5).length = 5 + 2
    ∧ 5 < (buildSample jobsTwoMatch jobsTwoMatch descBedrooms none 5).length
    ∧ (buildSample jobsTwoMatch jobsTwoMatch descBedrooms none 5).count jobTM1 = 2 := by
  refine ⟨by decide, by decide, by decide, by decide, by decide⟩

end PainterMCP
